import Mathlib

/-!
# Verification of the repeat_masker_utilities scripts

Shallow embedding of the two Python scripts `parse_repeat_masker_out.py` and
`extract_repmap_props.py` of the repeat_masker_utilities repository, together
with theorems about the behaviour of their parsing, merging and printing
functions.

Python strings are modelled as lists of characters (`PyStr`).  Input files are
modelled as lists of lines with the trailing newline already removed (matching
the `line.strip('\n')` at the top of every per-line loop).  Python `float`
values are modelled as exact rationals (`PyRat`); the divergence this
introduces against IEEE binary doubles is confined to the last significant
digit of the `g` formatting of adversarially chosen inputs and is noted at
`pyFormatG`.  Exceptions are modelled with `Option`/`Except`: a
`none`/`.error` result is a Python exception that escapes the function.
-/

/-- Python strings, modelled as lists of characters. -/
abbrev PyStr := List Char

/-- Python whitespace used by `str.split()` with no separator argument
(space, tab, newline, carriage return, vertical tab, form feed; further
Unicode whitespace code points do not occur in the inputs considered here). -/
def pyIsSpaceChar (c : Char) : Bool :=
  c = ' ' || c = '\t' || c = '\n' || c = '\r' || c = '\x0b' || c = '\x0c'

/-- Helper for `pySplitWs`: `cur` is the current word, reversed. -/
def pySplitWsAux : PyStr → PyStr → List PyStr
  | cur, [] => if cur = [] then [] else [cur.reverse]
  | cur, c :: cs =>
    if pyIsSpaceChar c then
      if cur = [] then pySplitWsAux [] cs else cur.reverse :: pySplitWsAux [] cs
    else pySplitWsAux (c :: cur) cs

/-- Python `line.split()`: split on runs of whitespace, dropping empty fields. -/
def pySplitWs (l : PyStr) : List PyStr := pySplitWsAux [] l

/-- Helper for `pySplitTab`: `cur` is the current field, reversed. -/
def pySplitTabAux : PyStr → PyStr → List PyStr
  | cur, [] => [cur.reverse]
  | cur, c :: cs =>
    if c = '\t' then cur.reverse :: pySplitTabAux [] cs
    else pySplitTabAux (c :: cur) cs

/-- Python `line.split('\t')`: split on each single tab, keeping empty fields. -/
def pySplitTab (l : PyStr) : List PyStr := pySplitTabAux [] l

/-- Python `line.startswith(c)` for a one-character prefix. -/
def pyStartsWith (l : PyStr) (c : Char) : Bool :=
  match l with
  | [] => false
  | a :: _ => a = c

/-- Decimal digit value of a character, as used by Python `int()` (Unicode
`Numeric_Type=Decimal`).  Covers the ASCII digits and the Arabic-Indic
digits; the remaining Unicode decimal-digit ranges do not occur in the
inputs considered here. -/
def pyDecimalVal (c : Char) : Option Nat :=
  if '0' ≤ c && c ≤ '9' then some (c.toNat - '0'.toNat)
  else if 0x660 ≤ c.toNat && c.toNat ≤ 0x669 then some (c.toNat - 0x660)
  else none

/-- Python `str.isnumeric` character test: true for characters with a Unicode
numeric type.  Besides the decimal digits this includes digit-typed and
numeric-typed characters such as the superscript digits and the vulgar
fractions, modelled here for the code points relevant to this development;
Python additionally accepts further Unicode numeric characters. -/
def pyNumericChar (c : Char) : Bool :=
  (pyDecimalVal c).isSome || c = '²' || c = '³' || c = '¹' ||
    c = '¼' || c = '½' || c = '¾'

/-- Python `s.isnumeric()`: nonempty and every character numeric. -/
def pyIsNumeric (s : PyStr) : Bool :=
  !s.isEmpty && s.all pyNumericChar

/-- Accumulate the value of a digit string; `none` on a non-decimal character. -/
def pyDigitsValAux : Nat → PyStr → Option Nat
  | acc, [] => some acc
  | acc, c :: cs =>
    match pyDecimalVal c with
    | some d => pyDigitsValAux (acc * 10 + d) cs
    | none => none

/-- Python `int(s)` on a string with no surrounding whitespace: an optional
sign followed by a nonempty run of decimal digits; anything else raises
`ValueError`, modelled as `none`.  (Underscore digit separators are not
modelled; they do not occur in the inputs considered here.) -/
def pyInt (s : PyStr) : Option Int :=
  match s with
  | [] => none
  | '-' :: rest =>
    if rest = [] then none else (pyDigitsValAux 0 rest).map (fun n => -(n : Int))
  | '+' :: rest =>
    if rest = [] then none else (pyDigitsValAux 0 rest).map (fun n => (n : Int))
  | _ => (pyDigitsValAux 0 s).map (fun n => (n : Int))

/-- Exact rational numbers with explicit numerator and denominator, kept
unnormalized so that every operation is a plain structural computation the
kernel can evaluate.  Models the Python float/int arithmetic of these scripts
exactly for the decimal values they compute with.  The denominator is kept
positive by every operation below. -/
structure PyRat where
  num : Int
  den : Nat := 1
deriving DecidableEq, Repr

/-- Embed an integer. -/
def pyRatOfInt (n : Int) : PyRat := { num := n }

/-- Python true division `a / b` (for `b ≠ 0`; the zero case is handled by
the callers, mirroring where Python raises `ZeroDivisionError`). -/
def pyRatDiv (a b : PyRat) : PyRat :=
  if b.num < 0 then { num := -(a.num * b.den), den := a.den * (-b.num).toNat }
  else { num := a.num * b.den, den := a.den * b.num.toNat }

/-- `⌊q⌋`. -/
def pyRatFloor (q : PyRat) : Int := q.num.fdiv q.den

/-- `q = 0`. -/
def pyRatIsZero (q : PyRat) : Bool := q.num = 0

/-- `q < 0`. -/
def pyRatIsNeg (q : PyRat) : Bool := q.num < 0

/-- `-q`. -/
def pyRatNeg (q : PyRat) : PyRat := { num := -q.num, den := q.den }

/-- Multiply by `10 ^ k` for an integer `k`. -/
def pyRatMulPow10 (q : PyRat) (k : Int) : PyRat :=
  if 0 ≤ k then { num := q.num * (10 : Int) ^ k.toNat, den := q.den }
  else { num := q.num, den := q.den * 10 ^ (-k).toNat }

/-- Absolute part of Python `float(s)`: digits, optionally followed by a point
and more digits, with at least one digit present overall.  Exponent forms and
the special values are not modelled; they do not occur in the inputs
considered here. -/
def pyFloatAbs (s : PyStr) : Option PyRat :=
  let intPart := s.takeWhile (fun c => (pyDecimalVal c).isSome)
  let rest := s.dropWhile (fun c => (pyDecimalVal c).isSome)
  match rest with
  | [] =>
    if intPart = [] then none
    else (pyDigitsValAux 0 intPart).map (fun n => pyRatOfInt n)
  | '.' :: frac =>
    if frac.all (fun c => (pyDecimalVal c).isSome) then
      if intPart = [] && frac = [] then none
      else
        match pyDigitsValAux 0 intPart, pyDigitsValAux 0 frac with
        | some ip, some fp =>
          some { num := (ip * 10 ^ frac.length + fp : Int), den := 10 ^ frac.length }
        | _, _ => none
    else none
  | _ => none

/-- Python `float(s)`, modelled as an exact rational (`ValueError` is `none`). -/
def pyFloat (s : PyStr) : Option PyRat :=
  match s with
  | '-' :: rest => (pyFloatAbs rest).map pyRatNeg
  | '+' :: rest => pyFloatAbs rest
  | _ => pyFloatAbs s

/-- Decimal rendering of a Python integer, as produced by `str`/f-strings. -/
def pyIntStr (i : Int) : PyStr :=
  if i < 0 then '-' :: Nat.toDigits 10 i.natAbs else Nat.toDigits 10 i.natAbs

/-- Strip trailing `'0'` characters from a digit string. -/
def stripTrailingZeros (l : PyStr) : PyStr :=
  (l.reverse.dropWhile (fun c => c = '0')).reverse

/-- Round a rational to the nearest integer, ties to even (the rounding used
by Python's float-to-decimal digit generation). -/
def roundHalfEven (q : PyRat) : Int :=
  let n := pyRatFloor q
  let r2 := 2 * (q.num - n * q.den)
  if r2 < (q.den : Int) then n
  else if (q.den : Int) < r2 then n + 1
  else if n % 2 = 0 then n else n + 1

/-- Scale `q` down by powers of ten until it is below ten, tracking the
decimal exponent; `fuel` bounds the number of steps. -/
def qScaleDown : Nat → PyRat → Int → PyRat × Int
  | 0, q, e => (q, e)
  | fuel + 1, q, e =>
    if 10 * (q.den : Int) ≤ q.num then
      qScaleDown fuel { num := q.num, den := q.den * 10 } (e + 1)
    else (q, e)

/-- Scale `q` up by powers of ten until it is at least one, tracking the
decimal exponent; `fuel` bounds the number of steps. -/
def qScaleUp : Nat → PyRat → Int → PyRat × Int
  | 0, q, e => (q, e)
  | fuel + 1, q, e =>
    if q.num < (q.den : Int) then
      qScaleUp fuel { num := q.num * 10, den := q.den } (e - 1)
    else (q, e)

/-- `'%.pg'` formatting of a positive rational: see `pyFormatG`. -/
def pyFormatGPos (p : Nat) (q : PyRat) : PyStr :=
  let p := max p 1
  let fuel := q.num.natAbs + q.den + 2
  let down := qScaleDown fuel q 0
  let up := qScaleUp fuel down.1 down.2
  let e0 := up.2
  let scaled := pyRatMulPow10 q ((p : Int) - 1 - e0)
  let n0 := roundHalfEven scaled
  let n := if n0 = 10 ^ p then (10 : Int) ^ (p - 1) else n0
  let e := if n0 = 10 ^ p then e0 + 1 else e0
  let digits := Nat.toDigits 10 n.toNat
  if -4 ≤ e && e < (p : Int) then
    if 0 ≤ e then
      let intPart := digits.take (e.toNat + 1)
      let fracPart := stripTrailingZeros (digits.drop (e.toNat + 1))
      if fracPart = [] then intPart else intPart ++ '.' :: fracPart
    else
      ['0', '.'] ++ List.replicate ((-e).toNat - 1) '0' ++ stripTrailingZeros digits
  else
    let mant :=
      match digits with
      | [] => ['0']
      | d :: rest =>
        let rest := stripTrailingZeros rest
        if rest = [] then [d] else d :: '.' :: rest
    let esign := if e < 0 then '-' else '+'
    let eabs := (if e < 0 then -e else e).toNat
    let edigits := Nat.toDigits 10 eabs
    let edigits := if edigits.length < 2 then '0' :: edigits else edigits
    mant ++ 'e' :: esign :: edigits

/-- Python `f'{x:0.pg}'` general formatting, over exact rationals: round to
`p` significant digits, use fixed notation for decimal exponents in
`[-4, p)` and scientific notation otherwise, and strip trailing zeros and a
trailing decimal point.  Rounding is round-half-to-even on the exact value;
CPython formats the nearest binary double instead, which agrees except on
values whose decimal expansion ties at the rounding digit after the binary
conversion (none of the values used in this development do). -/
def pyFormatG (p : Nat) (q : PyRat) : PyStr :=
  if pyRatIsZero q then ['0']
  else if pyRatIsNeg q then '-' :: pyFormatGPos p (pyRatNeg q)
  else pyFormatGPos p q

/-- Tab-join a list of cells, as the `'\t'.join`-shaped f-strings do. -/
def tabJoin (cells : List PyStr) : PyStr := (cells.intersperse ['\t']).flatten

example : pyFormatG 8 (pyRatDiv (pyRatOfInt 250) (pyRatOfInt 1000)) = "0.25".toList := by decide
example : pyFormatG 6 (pyRatOfInt 283) = "283".toList := by decide
example : pyFormatG 6 ⟨125, 1000⟩ = "0.125".toList := by decide
example : pyFormatG 8 (pyRatOfInt 0) = "0".toList := by decide
example : pyFormatG 6 (pyRatOfInt 12345678) = "1.23457e+07".toList := by decide
example : pyFormatG 8 ⟨1, 100000⟩ = "1e-05".toList := by decide
example : pyIntStr (-35) = "-35".toList := by decide
example : pyInt "150".toList = some 150 := by decide
example : pyFloat "12.5".toList = some ⟨125, 10⟩ := by decide
example : pySplitWs "  a bc  d ".toList = ["a".toList, "bc".toList, "d".toList] := by decide
example : pySplitTab "a\t\tb".toList = ["a".toList, [], "b".toList] := by decide
example : pyIsNumeric "283".toList = true := by decide
example : pyIsNumeric "1.2".toList = false := by decide
example : pyIsNumeric "²".toList = true := by decide

/-- `RepeatDivsum` of `parse_repeat_masker_out.py`: divergence summary
statistics for a given repeat. -/
structure RepeatDivsum where
  r_class : PyStr
  r_family : PyStr
  r_id : PyStr
  abs_len : Int
  wchar_len : Int
  kimura : PyRat
deriving DecidableEq, Repr

/-- `rep_class.split('/')[0]`: the part of the class/family string before the
first slash (the whole string when there is no slash). -/
def splitSlashHead (s : PyStr) : PyStr := s.takeWhile (fun c => c ≠ '/')

/-- The `RepeatDivsum.__init__` constructor: derives the top-level class from
the class/family string and stores the Kimura percentage divided by 100. -/
def mkRepeatDivsum (rep_class rep_id : PyStr) (abs_len well_char_len : Int)
    (kimura : PyRat) : RepeatDivsum :=
  { r_class := splitSlashHead rep_class
    r_family := rep_class
    r_id := rep_id
    abs_len := abs_len
    wchar_len := well_char_len
    kimura := pyRatDiv kimura (pyRatOfInt 100) }

/-- `RepeatAnnot` of `parse_repeat_masker_out.py`: annotation metadata for a
given repeat occurrence. -/
structure RepeatAnnot where
  name : PyStr
  r_class : PyStr
  r_family : PyStr
  chrom : PyStr
  start : Int
  «end» : Int
  strand : PyStr
  score : Int
deriving DecidableEq, Repr

/-- The `RepeatAnnot.__init__` constructor, with the source's argument order
`(rep_name, rep_class, chromosome, start, end, strand, sw_score)`. -/
def mkRepeatAnnot (rep_name rep_class chromosome : PyStr) (start «end» : Int)
    (strand : PyStr) (sw_score : Int) : RepeatAnnot :=
  { name := rep_name
    r_class := splitSlashHead rep_class
    r_family := rep_class
    chrom := chromosome
    start := start
    «end» := «end»
    strand := strand
    score := sw_score }

/-- The `divsum` Python dict, as an insertion-ordered association list. -/
abbrev DivDict := List (PyStr × RepeatDivsum)

/-- Python dict assignment `d[k] = v`: overwrite in place if the key exists
(keeping its original position), else append. -/
def dictInsert (k : PyStr) (v : RepeatDivsum) : DivDict → DivDict
  | [] => [(k, v)]
  | (k', v') :: t => if k' = k then (k, v) :: t else (k', v') :: dictInsert k v t

/-- Python `d.get(k, None)`. -/
def dictGet (d : DivDict) (k : PyStr) : Option RepeatDivsum :=
  match d with
  | [] => none
  | (k', v) :: t => if k' = k then some v else dictGet t k

/-- The keys of the dict, in insertion order. -/
def dictKeys (d : DivDict) : List PyStr := d.map Prod.fst

/-- Result of `parse_divsum_table`: the `divsum` dict and the
`records`/`discard` progress counters. -/
structure DivsumResult where
  divsum : DivDict
  records : Nat
  discard : Nat
deriving DecidableEq, Repr

/-- The fixed reject-set of `parse_divsum_table` for the first field of a
5-field line. -/
def divsumReject (f : PyStr) : Bool :=
  f = "Class".toList || f = "ARTEFACT".toList ||
    f = "Simple_repeat".toList || f = "-----".toList

/-- Classification of one line of the divergence summary table. -/
inductive DivLine where
  /-- Comment, empty line, wrong field count, or reject-set header. -/
  | skip : DivLine
  /-- A candidate data record. -/
  | cand : RepeatDivsum → DivLine
  /-- `int()`/`float()` raised `ValueError`, aborting the parse. -/
  | err : DivLine
deriving DecidableEq, Repr

/-- The per-line classifier of `parse_divsum_table`: skip comments, empty
lines, lines without exactly 5 tab-separated fields and reject-set headers;
otherwise build the `RepeatDivsum` record (aborting on a `ValueError` from
`int`/`float`). -/
def divsumClassify (line : PyStr) : DivLine :=
  if pyStartsWith line '#' then .skip
  else if line.length = 0 then .skip
  else
    match pySplitTab line with
    | [f0, f1, f2, f3, f4] =>
      if divsumReject f0 then .skip
      else
        match pyInt f2, pyInt f3, pyFloat f4 with
        | some a, some w, some k => .cand (mkRepeatDivsum f0 f1 a w k)
        | _, _, _ => .err
    | _ => .skip

/-- One loop iteration of `parse_divsum_table`: count the candidate record,
then either discard it (when its well-characterized length is below
`min_len`) or store it in the dict keyed by its repeat identifier. -/
def parseDivsumStep (st : DivsumResult) (min_len : Int) (line : PyStr) :
    Option DivsumResult :=
  match divsumClassify line with
  | .skip => some st
  | .err => none
  | .cand r =>
    if r.wchar_len < min_len then
      some { st with records := st.records + 1, discard := st.discard + 1 }
    else
      some { st with
              records := st.records + 1
              divsum := dictInsert r.r_id r st.divsum }

/-- The line loop of `parse_divsum_table`, from an intermediate state. -/
def parseDivsumFrom (st : DivsumResult) (min_len : Int) :
    List PyStr → Option DivsumResult
  | [] => some st
  | l :: ls =>
    match parseDivsumStep st min_len l with
    | none => none
    | some st' => parseDivsumFrom st' min_len ls

/-- `parse_divsum_table` on the (newline-stripped) lines of the input file. -/
def parseDivsumLines (lines : List PyStr) (min_len : Int) : Option DivsumResult :=
  parseDivsumFrom ⟨[], 0, 0⟩ min_len lines

/-- The candidate records of a divergence summary input, in file order: one
per line the classifier turns into a data record. -/
def divsumCandidates (lines : List PyStr) : List RepeatDivsum :=
  lines.filterMap (fun l =>
    match divsumClassify l with
    | .cand r => some r
    | _ => none)

/-- The candidate records that survive the minimum-length filter, in file
order. -/
def divsumRetained (lines : List PyStr) (min_len : Int) : List RepeatDivsum :=
  (divsumCandidates lines).filter (fun r => !decide (r.wchar_len < min_len))

/-- The local variables of `parse_crossmatch_table`'s loop body that are
assigned inside the `try` block.  `none` models a name that has not been
bound yet (using it raises `NameError`); after a caught `IndexError` the
variables assigned before the failing subscript keep their new values while
the later ones keep whatever they held from the previous iteration. -/
structure CMVars where
  sw_score : Option Int := none
  chromosome : Option PyStr := none
  start_bp : Option Int := none
  end_bp : Option Int := none
  re_name : Option PyStr := none
  re_class : Option PyStr := none
  strand : Option PyStr := none
deriving DecidableEq, Repr

/-- The loop state of `parse_crossmatch_table`: the variables above, the
`cross_match` output list, the `records`/`kept` counters, and the indices of
the lines whose `IndexError` was reported. -/
structure CMState where
  vars : CMVars
  cross_match : List RepeatAnnot
  records : Nat
  kept : Nat
  err_lines : List Nat
deriving DecidableEq, Repr

/-- The `try` block of `parse_crossmatch_table`, in source assignment order
(`fields[0]`, `[4]`, `[5]`, `[6]`, `[9]`, `[10]`, `[8]`, then the
`C` → `-` strand normalization).  Returns the updated variables and whether
an `IndexError` was caught (and reported); a `ValueError` from `int()` is not
caught and aborts the whole parse (`.error`). -/
def cmTry (v : CMVars) (fields : List PyStr) : Except Unit (CMVars × Bool) :=
  match fields.get? 0 with
  | none => .ok (v, true)
  | some f0 =>
    match pyInt f0 with
    | none => .error ()
    | some sw =>
      let v := { v with sw_score := some sw }
      match fields.get? 4 with
      | none => .ok (v, true)
      | some ch =>
        let v := { v with chromosome := some ch }
        match fields.get? 5 with
        | none => .ok (v, true)
        | some f5 =>
          match pyInt f5 with
          | none => .error ()
          | some sb =>
            let v := { v with start_bp := some sb }
            match fields.get? 6 with
            | none => .ok (v, true)
            | some f6 =>
              match pyInt f6 with
              | none => .error ()
              | some eb =>
                let v := { v with end_bp := some eb }
                match fields.get? 9 with
                | none => .ok (v, true)
                | some nm =>
                  let v := { v with re_name := some nm }
                  match fields.get? 10 with
                  | none => .ok (v, true)
                  | some cl =>
                    let v := { v with re_class := some cl }
                    match fields.get? 8 with
                    | none => .ok (v, true)
                    | some s8 =>
                      let sd := if s8 = ['C'] then ['-'] else s8
                      .ok ({ v with strand := some sd }, false)

/-- One loop iteration of `parse_crossmatch_table` on line `i`: skip comments
and empty lines; `fields[0]` of a whitespace-only line raises an uncaught
`IndexError`; skip lines whose first field is not numeric; otherwise run the
`try` block and then, outside it, construct the `RepeatAnnot` from the local
variables (raising `NameError` if any of them was never bound) and append it
to `cross_match`. -/
def cmStep (st : CMState) (i : Nat) (line : PyStr) : Except String CMState :=
  if pyStartsWith line '#' then .ok st
  else if line.length = 0 then .ok st
  else
    match pySplitWs line with
    | [] => .error "IndexError"
    | f0 :: rest =>
      if !pyIsNumeric f0 then .ok st
      else
        match cmTry st.vars (f0 :: rest) with
        | .error _ => .error "ValueError"
        | .ok (v, reported) =>
          match v.sw_score, v.chromosome, v.start_bp, v.end_bp,
              v.re_name, v.re_class, v.strand with
          | some sw, some ch, some sb, some eb, some nm, some cl, some sd =>
            .ok { vars := v
                  cross_match := st.cross_match ++ [mkRepeatAnnot nm cl ch sb eb sd sw]
                  records := st.records + 1
                  kept := st.kept + 1
                  err_lines := st.err_lines ++ (if reported then [i] else []) }
          | _, _, _, _, _, _, _ => .error "NameError"

/-- The line loop of `parse_crossmatch_table`, from an intermediate state. -/
def cmRun (st : CMState) (i : Nat) : List PyStr → Except String CMState
  | [] => .ok st
  | l :: ls =>
    match cmStep st i l with
    | .error e => .error e
    | .ok st' => cmRun st' (i + 1) ls

/-- `parse_crossmatch_table` on the (newline-stripped) lines of the input
file. -/
def parseCrossmatchLines (lines : List PyStr) : Except String CMState :=
  cmRun ⟨{}, [], 0, 0, []⟩ 0 lines

/-- The exception, if any, of an embedded computation. -/
def exceptErr (r : Except String CMState) : Option String :=
  match r with
  | .error e => some e
  | .ok _ => none

/-- The header row of the merged output table. -/
def mergedHeader : PyStr :=
  "#Chromosome\tStartBP\tEndBP\tStrand\tName\tClass\tFamily\tWellCharLen\tKimura\tSwScore".toList

/-- The `WellCharLen` cell of a merged row: the `wchar_len` of the matched
divergence record, or the `f'{None}'` rendering when there is no match. -/
def wcharCell (dv : Option RepeatDivsum) : PyStr :=
  match dv with
  | none => "None".toList
  | some d => pyIntStr d.wchar_len

/-- The `Kimura` cell of a merged row: the Kimura fraction of the matched
divergence record formatted with `0.6g`, or the `f'{None}'` rendering when
there is no match. -/
def kimuraCell (dv : Option RepeatDivsum) : PyStr :=
  match dv with
  | none => "None".toList
  | some d => pyFormatG 6 d.kimura

/-- One data row of the merged output table, for an annotation and its
optional divergence match. -/
def mergeRow (a : RepeatAnnot) (dv : Option RepeatDivsum) : PyStr :=
  tabJoin [a.chrom, pyIntStr a.start, pyIntStr a.«end», a.strand, a.name,
    a.r_class, a.r_family, wcharCell dv, kimuraCell dv,
    pyFormatG 6 (pyRatOfInt a.score)]

/-- Whether the consistency `assert` of `merge_cross_divsum` fails for an
annotation: its name has a divergence match whose top-level class differs. -/
def classMismatch (divsum : DivDict) (a : RepeatAnnot) : Bool :=
  match dictGet divsum a.name with
  | none => false
  | some d => decide (a.r_class ≠ d.r_class)

/-- The sort key comparison of `sorted(cross_match, key=lambda a: a.start)`. -/
def annotLe (a b : RepeatAnnot) : Bool := decide (a.start ≤ b.start)

/-- Python `sorted(cross_match, key=lambda a: a.start)`: a stable sort by
start coordinate (Python's sort and `List.mergeSort` are both stable, so they
agree on every input). -/
def pySortAnnots (l : List RepeatAnnot) : List RepeatAnnot := l.mergeSort annotLe

/-- The annotation loop of `merge_cross_divsum` over the sorted annotations:
emit one row per annotation, stopping with an `AssertionError` at the first
annotation whose divergence match has a different top-level class.  Returns
the emitted data rows and the exception, if any. -/
def mergeGo (divsum : DivDict) : List RepeatAnnot → List PyStr × Option String
  | [] => ([], none)
  | a :: rest =>
    match dictGet divsum a.name with
    | some d =>
      if a.r_class ≠ d.r_class then ([], some "AssertionError")
      else
        let r := mergeGo divsum rest
        (mergeRow a (some d) :: r.1, r.2)
    | none =>
      let r := mergeGo divsum rest
      (mergeRow a none :: r.1, r.2)

/-- `merge_cross_divsum`: the lines written to the merged output file (header
first), plus the exception, if any, that aborted the loop.  The `matches`
counter of the source equals the number of emitted data rows. -/
def mergeCrossDivsum (cross : List RepeatAnnot) (divsum : DivDict) :
    List PyStr × Option String :=
  let r := mergeGo divsum (pySortAnnots cross)
  (mergedHeader :: r.1, r.2)

/-- The string comparison underlying Python `sorted` on `str` keys:
lexicographic by code point. -/
def pyStrLe : PyStr → PyStr → Bool
  | [], _ => true
  | _ :: _, [] => false
  | a :: as, b :: bs =>
    if a.toNat < b.toNat then true
    else if b.toNat < a.toNat then false
    else pyStrLe as bs

/-- Python `sorted(divsum)`: the keys of the dict in ascending string order. -/
def sortedKeys (d : DivDict) : List PyStr := (dictKeys d).mergeSort pyStrLe

/-- The header row of the clean divsum output file. -/
def divsumHeader : PyStr := "Class\tRepeat\tabsLen\twellCharLen\tKimura".toList

/-- One data row of the clean divsum output file: class/family, identifier,
absolute length, well-characterized length, and the Kimura fraction formatted
with `0.08g`. -/
def divsumRow (div : RepeatDivsum) : PyStr :=
  tabJoin [div.r_family, div.r_id, pyIntStr div.abs_len, pyIntStr div.wchar_len,
    pyFormatG 8 div.kimura]

/-- `clean_divsum_file`: the lines written to the clean divsum output file —
the header, then one row per dict entry, iterating the keys in ascending
order (`divsum[element]` cannot fail for a key of the dict, hence the
`filterMap`). -/
def cleanDivsumFile (divsum : DivDict) : List PyStr :=
  divsumHeader :: (sortedKeys divsum).filterMap
    (fun k => (dictGet divsum k).map divsumRow)

/-- `RepProp` of `extract_repmap_props.py`: repeat proportions for one
sequence, all fields defaulting to 0. -/
structure RepProp where
  seq_id : PyStr
  total_length : Int := 0
  total_masked : Int := 0
  interspersed : Int := 0
  dna : Int := 0
  ltr : Int := 0
  line : Int := 0
  sine : Int := 0
  small_rna : Int := 0
  unclassified : Int := 0
deriving DecidableEq, Repr

/-- The header row of the repeat proportions output table. -/
def propsHeader : PyStr :=
  ("SequenceID\tTotalSeqLen_BP\tMasked_BP\tMasked_Prop\tInterspersed_BP\t" ++
    "Interspersed_Prop\tDNA_BP\tDNA_Prop\tLTR_BP\tLTR_Prop\tLINE_BP\tLINE_Prop\t" ++
    "SINE_BP\tSINE_Prop\tsmallRNA_BP\tsmallRNA_Prop\tUnclassified_BP\t" ++
    "Unclassified_Prop").toList

/-- One proportion cell of the output row: `f'{(value/total):0.08g}'`. -/
def propCell (v total : Int) : PyStr :=
  pyFormatG 8 (pyRatDiv (pyRatOfInt v) (pyRatOfInt total))

/-- The data row of `print_table`. -/
def propsRow (r : RepProp) : PyStr :=
  tabJoin [r.seq_id,
    pyIntStr r.total_length,
    pyIntStr r.total_masked, propCell r.total_masked r.total_length,
    pyIntStr r.interspersed, propCell r.interspersed r.total_length,
    pyIntStr r.dna, propCell r.dna r.total_length,
    pyIntStr r.ltr, propCell r.ltr r.total_length,
    pyIntStr r.line, propCell r.line r.total_length,
    pyIntStr r.sine, propCell r.sine r.total_length,
    pyIntStr r.small_rna, propCell r.small_rna r.total_length,
    pyIntStr r.unclassified, propCell r.unclassified r.total_length]

/-- `print_table` of `extract_repmap_props.py`: the lines written to the
output file and the exception, if any.  The header is written first; the data
row is then built, and its first division raises `ZeroDivisionError` when
`total_length` is 0, aborting before the row is written. -/
def printTable (r : RepProp) : List PyStr × Option String :=
  if r.total_length = 0 then ([propsHeader], some "ZeroDivisionError")
  else ([propsHeader, propsRow r], none)


theorem dictGet_insert (k : PyStr) (v : RepeatDivsum) (d : DivDict) (k' : PyStr) :
    dictGet (dictInsert k v d) k' = if k = k' then some v else dictGet d k' := by
  induction d with
  | nil => simp [dictInsert, dictGet]
  | cons hd t ih =>
    obtain ⟨kk, vv⟩ := hd
    by_cases hk : kk = k
    · subst hk
      by_cases hk' : kk = k'
      · subst hk'
        simp [dictInsert, dictGet]
      · simp [dictInsert, dictGet, hk']
    · have hne : ¬ k = kk := fun h => hk h.symm
      by_cases hk' : kk = k'
      · subst hk'
        simp [dictInsert, dictGet, hk, hne]
      · simp [dictInsert, dictGet, hk, hk', ih]

theorem dictKeys_nil : dictKeys [] = [] := rfl

theorem dictKeys_cons (kk : PyStr) (vv : RepeatDivsum) (t : DivDict) :
    dictKeys ((kk, vv) :: t) = kk :: dictKeys t := rfl

theorem dictKeys_insert (k : PyStr) (v : RepeatDivsum) (d : DivDict) :
    dictKeys (dictInsert k v d) =
      if k ∈ dictKeys d then dictKeys d else dictKeys d ++ [k] := by
  induction d with
  | nil => simp [dictInsert, dictKeys_nil, dictKeys_cons]
  | cons hd t ih =>
    obtain ⟨kk, vv⟩ := hd
    by_cases hk : kk = k
    · subst hk
      simp [dictInsert, dictKeys_cons]
    · have hne : ¬ k = kk := fun h => hk h.symm
      rw [show dictInsert k v ((kk, vv) :: t) = (kk, vv) :: dictInsert k v t by
        simp [dictInsert, hk]]
      rw [dictKeys_cons, dictKeys_cons, ih]
      by_cases hmem : k ∈ dictKeys t
      · simp [hmem, hne]
      · simp [hmem, hne]

theorem dictKeys_insert_nodup (k : PyStr) (v : RepeatDivsum) (d : DivDict)
    (h : (dictKeys d).Nodup) : (dictKeys (dictInsert k v d)).Nodup := by
  rw [dictKeys_insert]
  by_cases hmem : k ∈ dictKeys d
  · simpa [hmem]
  · simp only [hmem, if_false]
    exact h.append (List.nodup_singleton k) (by simpa using hmem)

theorem mem_dictKeys_iff_isSome (d : DivDict) (k : PyStr) :
    k ∈ dictKeys d ↔ (dictGet d k).isSome = true := by
  induction d with
  | nil => simp [dictKeys_nil, dictGet]
  | cons hd t ih =>
    obtain ⟨kk, vv⟩ := hd
    by_cases hk : kk = k
    · subst hk
      simp [dictKeys_cons, dictGet]
    · have hne : ¬ k = kk := fun h => hk h.symm
      simp [dictKeys_cons, dictGet, hk, hne, ih]

theorem getLast?_cons_or {α : Type} (x : α) (xs : List α) (z : Option α) :
    ((x :: xs).getLast?).or z = (xs.getLast?).or (some x) := by
  cases xs with
  | nil => simp
  | cons y ys =>
    rw [List.getLast?_cons_cons]
    rw [Option.or_of_isSome (by simp), Option.or_of_isSome (by simp)]

theorem divsumCandidates_nil : divsumCandidates [] = [] := rfl

theorem divsumCandidates_cons (l : PyStr) (ls : List PyStr) :
    divsumCandidates (l :: ls) =
      match divsumClassify l with
      | .cand r => r :: divsumCandidates ls
      | _ => divsumCandidates ls := by
  simp only [divsumCandidates, List.filterMap_cons]
  cases divsumClassify l <;> rfl

theorem parseDivsumFrom_discard (min_len : Int) (lines : List PyStr) :
    ∀ (st res : DivsumResult),
      parseDivsumFrom st min_len lines = some res →
      res.discard = st.discard +
        (divsumCandidates lines).countP (fun r => decide (r.wchar_len < min_len)) := by
  induction lines with
  | nil =>
    intro st res h
    simp only [parseDivsumFrom, Option.some.injEq] at h
    subst h
    simp [divsumCandidates_nil]
  | cons l ls ih =>
    intro st res h
    simp only [parseDivsumFrom] at h
    rcases hstep : parseDivsumStep st min_len l with _ | st'
    · rw [hstep] at h
      exact absurd h (by simp)
    · rw [hstep] at h
      cases hc : divsumClassify l with
      | skip =>
        simp only [parseDivsumStep, hc, Option.some.injEq] at hstep
        subst hstep
        simpa [divsumCandidates_cons, hc] using ih st res h
      | err =>
        simp only [parseDivsumStep, hc] at hstep
        exact Option.noConfusion hstep
      | cand r =>
        simp only [parseDivsumStep, hc] at hstep
        by_cases hlt : r.wchar_len < min_len
        · rw [if_pos hlt] at hstep
          obtain rfl : _ = st' := Option.some.injEq .. ▸ hstep
          have := ih _ res h
          simp only [divsumCandidates_cons, hc, List.countP_cons] at this ⊢
          simp [hlt] at this ⊢
          omega
        · rw [if_neg hlt] at hstep
          obtain rfl : _ = st' := Option.some.injEq .. ▸ hstep
          have := ih _ res h
          simp only [divsumCandidates_cons, hc, List.countP_cons] at this ⊢
          simp [hlt] at this ⊢
          omega

theorem parseDivsumFrom_get (min_len : Int) (lines : List PyStr) :
    ∀ (st res : DivsumResult),
      parseDivsumFrom st min_len lines = some res →
      ∀ id : PyStr,
        dictGet res.divsum id =
          (((divsumRetained lines min_len).filter
              (fun r => decide (r.r_id = id))).getLast?).or (dictGet st.divsum id) := by
  induction lines with
  | nil =>
    intro st res h id
    simp only [parseDivsumFrom, Option.some.injEq] at h
    subst h
    simp [divsumRetained, divsumCandidates_nil]
  | cons l ls ih =>
    intro st res h id
    simp only [parseDivsumFrom] at h
    rcases hstep : parseDivsumStep st min_len l with _ | st'
    · rw [hstep] at h
      exact absurd h (by simp)
    · rw [hstep] at h
      cases hc : divsumClassify l with
      | skip =>
        simp only [parseDivsumStep, hc, Option.some.injEq] at hstep
        subst hstep
        have hr : divsumRetained (l :: ls) min_len = divsumRetained ls min_len := by
          simp [divsumRetained, divsumCandidates_cons, hc]
        rw [hr]
        exact ih st res h id
      | err =>
        simp only [parseDivsumStep, hc] at hstep
        exact Option.noConfusion hstep
      | cand r =>
        simp only [parseDivsumStep, hc] at hstep
        by_cases hlt : r.wchar_len < min_len
        · rw [if_pos hlt] at hstep
          obtain rfl : _ = st' := Option.some.injEq .. ▸ hstep
          have hr : divsumRetained (l :: ls) min_len = divsumRetained ls min_len := by
            simp [divsumRetained, divsumCandidates_cons, hc, List.filter_cons, hlt]
          rw [hr]
          exact ih _ res h id
        · rw [if_neg hlt] at hstep
          obtain rfl : _ = st' := Option.some.injEq .. ▸ hstep
          have hr : divsumRetained (l :: ls) min_len = r :: divsumRetained ls min_len := by
            simp [divsumRetained, divsumCandidates_cons, hc, List.filter_cons, hlt]
          rw [hr]
          have hih := ih _ res h id
          rw [dictGet_insert] at hih
          by_cases hid : r.r_id = id
          · rw [List.filter_cons_of_pos (by simp [hid])]
            rw [getLast?_cons_or, hih, if_pos hid]
          · rw [List.filter_cons_of_neg (by simp [hid])]
            rw [hih, if_neg hid]

theorem parseDivsumFrom_nodup (min_len : Int) (lines : List PyStr) :
    ∀ (st res : DivsumResult), (dictKeys st.divsum).Nodup →
      parseDivsumFrom st min_len lines = some res → (dictKeys res.divsum).Nodup := by
  induction lines with
  | nil =>
    intro st res hn h
    simp only [parseDivsumFrom, Option.some.injEq] at h
    subst h
    exact hn
  | cons l ls ih =>
    intro st res hn h
    simp only [parseDivsumFrom] at h
    rcases hstep : parseDivsumStep st min_len l with _ | st'
    · rw [hstep] at h
      exact absurd h (by simp)
    · rw [hstep] at h
      cases hc : divsumClassify l with
      | skip =>
        simp only [parseDivsumStep, hc, Option.some.injEq] at hstep
        subst hstep
        exact ih st res hn h
      | err =>
        simp only [parseDivsumStep, hc] at hstep
        exact Option.noConfusion hstep
      | cand r =>
        simp only [parseDivsumStep, hc] at hstep
        by_cases hlt : r.wchar_len < min_len
        · rw [if_pos hlt] at hstep
          obtain rfl : _ = st' := Option.some.injEq .. ▸ hstep
          refine ih _ res ?_ h
          exact hn
        · rw [if_neg hlt] at hstep
          obtain rfl : _ = st' := Option.some.injEq .. ▸ hstep
          refine ih _ res ?_ h
          exact dictKeys_insert_nodup _ _ _ hn

theorem pySplitWsAux_all_space (l : PyStr) (h : l.all pyIsSpaceChar = true) :
    pySplitWsAux [] l = [] := by
  induction l with
  | nil => rfl
  | cons c cs ih =>
    simp only [List.all_cons, Bool.and_eq_true] at h
    simp [pySplitWsAux, h.1, ih h.2]

theorem cmStep_ws (st : CMState) (i : Nat) (l : PyStr) (hne : l ≠ [])
    (hsp : l.all pyIsSpaceChar = true) : cmStep st i l = .error "IndexError" := by
  obtain ⟨c, cs, rfl⟩ := List.exists_cons_of_ne_nil hne
  have h1 : pyIsSpaceChar c = true := by
    simp only [List.all_cons, Bool.and_eq_true] at hsp
    exact hsp.1
  have hc : ¬ c = '#' := by
    intro hcc
    rw [hcc] at h1
    exact absurd h1 (by decide)
  simp [cmStep, pyStartsWith, hc, pySplitWs, pySplitWsAux_all_space _ hsp]

theorem cmRun_ws (lines : List PyStr) :
    ∀ (st : CMState) (i : Nat),
      (∃ l ∈ lines, l ≠ [] ∧ l.all pyIsSpaceChar = true) →
      (cmRun st i lines).toOption = none := by
  induction lines with
  | nil =>
    intro st i h
    simp at h
  | cons l ls ih =>
    intro st i h
    rcases h with ⟨w, hw, hne, hsp⟩
    rcases List.mem_cons.mp hw with rfl | hmem
    · rw [cmRun, cmStep_ws st i w hne hsp]
      rfl
    · rw [cmRun]
      cases hstep : cmStep st i l with
      | error e => rfl
      | ok st' => exact ih st' (i + 1) ⟨w, hmem, hne, hsp⟩

theorem mergeGo_no_mismatch (divsum : DivDict) (l : List RepeatAnnot)
    (h : ∀ a ∈ l, classMismatch divsum a = false) :
    mergeGo divsum l =
      (l.map (fun a => mergeRow a (dictGet divsum a.name)), none) := by
  induction l with
  | nil => rfl
  | cons a rest ih =>
    have ha : classMismatch divsum a = false := h a (List.mem_cons_self a rest)
    have hrest := ih (fun b hb => h b (List.mem_cons_of_mem a hb))
    rcases hd : dictGet divsum a.name with _ | d
    · simp [mergeGo, hd, hrest]
    · have hcls : ¬ a.r_class ≠ d.r_class := by
        simp only [classMismatch, hd] at ha
        simpa using ha
      simp [mergeGo, hd, if_neg hcls, hrest, hcls]

theorem mergeGo_mismatch (divsum : DivDict) (l : List RepeatAnnot)
    (h : ∃ a ∈ l, classMismatch divsum a = true) :
    mergeGo divsum l =
      ((l.takeWhile (fun a => !classMismatch divsum a)).map
          (fun a => mergeRow a (dictGet divsum a.name)),
        some "AssertionError") := by
  induction l with
  | nil => simp at h
  | cons a rest ih =>
    by_cases ha : classMismatch divsum a = true
    · rcases hd : dictGet divsum a.name with _ | d
      · simp only [classMismatch, hd] at ha
        cases ha
      · have hcl : a.r_class ≠ d.r_class := by
          simp only [classMismatch, hd] at ha
          simpa using ha
        simp [mergeGo, hd, if_pos hcl, List.takeWhile_cons, ha]
    · have ha' : classMismatch divsum a = false := by simpa using ha
      rcases h with ⟨w, hw, hsp⟩
      rcases List.mem_cons.mp hw with rfl | hmem
      · rw [ha'] at hsp
        cases hsp
      · have hrest := ih ⟨w, hmem, hsp⟩
        rcases hd : dictGet divsum a.name with _ | d
        · simp [mergeGo, hd, hrest, List.takeWhile_cons, ha']
        · have hcls : ¬ a.r_class ≠ d.r_class := by
            simp only [classMismatch, hd] at ha'
            simpa using ha'
          simp [mergeGo, hd, if_neg hcls, hrest, List.takeWhile_cons, ha', hcls]

theorem annotLe_trans : ∀ (a b c : RepeatAnnot),
    annotLe a b → annotLe b c → annotLe a c := by
  intro a b c h1 h2
  simp only [annotLe, decide_eq_true_eq] at h1 h2 ⊢
  omega

theorem annotLe_total : ∀ (a b : RepeatAnnot), annotLe a b || annotLe b a := by
  intro a b
  simp only [annotLe, Bool.or_eq_true, decide_eq_true_eq]
  omega

theorem pyStrLe_total (a : PyStr) : ∀ b : PyStr, (pyStrLe a b || pyStrLe b a) = true := by
  induction a with
  | nil => intro b; simp [pyStrLe]
  | cons c cs ih =>
    intro b
    cases b with
    | nil => simp [pyStrLe]
    | cons d ds =>
      simp only [pyStrLe]
      by_cases h1 : c.toNat < d.toNat
      · simp [h1]
      · by_cases h2 : d.toNat < c.toNat
        · simp [h1, h2]
        · simp [h1, h2, ih ds]

theorem pyStrLe_trans (a : PyStr) : ∀ b c : PyStr,
    pyStrLe a b = true → pyStrLe b c = true → pyStrLe a c = true := by
  induction a with
  | nil => intro b c _ _; simp [pyStrLe]
  | cons x xs ih =>
    intro b c hab hbc
    cases b with
    | nil => simp [pyStrLe] at hab
    | cons y ys =>
      cases c with
      | nil => simp [pyStrLe] at hbc
      | cons z zs =>
        simp only [pyStrLe] at hab hbc ⊢
        by_cases h1 : x.toNat < y.toNat
        · by_cases h2 : y.toNat < z.toNat
          · simp [Nat.lt_trans h1 h2]
          · by_cases h3 : z.toNat < y.toNat
            · rw [if_neg h2, if_pos h3] at hbc
              cases hbc
            · have : x.toNat < z.toNat := by omega
              simp [this]
        · by_cases h1' : y.toNat < x.toNat
          · rw [if_neg h1, if_pos h1'] at hab
            cases hab
          · rw [if_neg h1, if_neg h1'] at hab
            by_cases h2 : y.toNat < z.toNat
            · have : x.toNat < z.toNat := by omega
              simp [this]
            · by_cases h3 : z.toNat < y.toNat
              · rw [if_neg h2, if_pos h3] at hbc
                cases hbc
              · rw [if_neg h2, if_neg h3] at hbc
                have h4 : ¬ x.toNat < z.toNat := by omega
                have h5 : ¬ z.toNat < x.toNat := by omega
                rw [if_neg h4, if_neg h5]
                exact ih ys zs hab hbc

theorem filterMap_length_of_isSome {α β : Type} (f : α → Option β) (l : List α)
    (h : ∀ a ∈ l, (f a).isSome = true) : (l.filterMap f).length = l.length := by
  induction l with
  | nil => rfl
  | cons a t ih =>
    have ha := h a (List.mem_cons_self a t)
    rcases hfa : f a with _ | b
    · rw [hfa] at ha
      cases ha
    · simp [List.filterMap_cons, hfa,
        ih (fun x hx => h x (List.mem_cons_of_mem _ hx))]

/-- **C4.** For every divergence-summary input on which `parse_divsum_table`
succeeds and minimum-length threshold `min_len`, exactly the candidate
records whose well-characterized length is strictly below `min_len` are
discarded, each counted in the discard counter, while a record whose
well-characterized length is at least `min_len` (in particular, equal to it)
is retained in the returned index. -/
theorem c4_divsum_min_length_filter (lines : List PyStr) (min_len : Int)
    (res : DivsumResult) (h : parseDivsumLines lines min_len = some res) :
    res.discard =
      (divsumCandidates lines).countP (fun r => decide (r.wchar_len < min_len))
    ∧ ∀ id : PyStr,
        id ∈ dictKeys res.divsum ↔
          ∃ r ∈ divsumRetained lines min_len, r.r_id = id := by
  constructor
  · simpa using parseDivsumFrom_discard min_len lines _ res h
  · intro id
    rw [mem_dictKeys_iff_isSome, parseDivsumFrom_get min_len lines _ res h id]
    show ((((divsumRetained lines min_len).filter
      (fun r => decide (r.r_id = id))).getLast?).or none).isSome = true ↔ _
    rw [Option.or_none, List.getLast?_isSome, Ne, List.filter_eq_nil_iff]
    push_neg
    constructor
    · rintro ⟨r, hr, hp⟩
      exact ⟨r, hr, by simpa using hp⟩
    · rintro ⟨r, hr, hp⟩
      exact ⟨r, hr, by simpa using hp⟩

/-- Witness for C4 at a concrete input with `min_len = 100`: the length-99
record is discarded and counted, the length-100 record is retained. -/
theorem c4_divsum_min_length_filter_witness :
    (⟨[("L1-100".toList,
          mkRepeatDivsum "LINE/L1".toList "L1-100".toList 600 100 ⟨125, 10⟩)],
        2, 1⟩ : DivsumResult).discard =
      (divsumCandidates ["LINE/L1\tL1-99\t500\t99\t12.5".toList,
          "LINE/L1\tL1-100\t600\t100\t12.5".toList]).countP
        (fun r => decide (r.wchar_len < 100))
    ∧ ("L1-100".toList ∈ dictKeys
          (⟨[("L1-100".toList,
              mkRepeatDivsum "LINE/L1".toList "L1-100".toList 600 100 ⟨125, 10⟩)],
            2, 1⟩ : DivsumResult).divsum ↔
        ∃ r ∈ divsumRetained ["LINE/L1\tL1-99\t500\t99\t12.5".toList,
            "LINE/L1\tL1-100\t600\t100\t12.5".toList] 100,
          r.r_id = "L1-100".toList) := by
  have h := c4_divsum_min_length_filter
    ["LINE/L1\tL1-99\t500\t99\t12.5".toList,
      "LINE/L1\tL1-100\t600\t100\t12.5".toList] 100
    ⟨[("L1-100".toList,
        mkRepeatDivsum "LINE/L1".toList "L1-100".toList 600 100 ⟨125, 10⟩)],
      2, 1⟩ (by decide)
  exact ⟨h.1, h.2 "L1-100".toList⟩

/-- **C9.** In the divergence index returned by `parse_divsum_table`, every
repeat identifier is a unique key, and the index maps each identifier to the
record built from the last retained line in file order having that
identifier (last-write-wins). -/
theorem c9_divsum_last_write_wins (lines : List PyStr) (min_len : Int)
    (res : DivsumResult) (h : parseDivsumLines lines min_len = some res) :
    (dictKeys res.divsum).Nodup
    ∧ ∀ id : PyStr,
        dictGet res.divsum id =
          ((divsumRetained lines min_len).filter
            (fun r => decide (r.r_id = id))).getLast? := by
  constructor
  · exact parseDivsumFrom_nodup min_len lines ⟨[], 0, 0⟩ res List.nodup_nil h
  · intro id
    rw [parseDivsumFrom_get min_len lines _ res h id]
    exact Option.or_none

/-- Witness for C9 at a concrete input with two retained records sharing the
identifier `L1`: the index holds the record of the second (last) line. -/
theorem c9_divsum_last_write_wins_witness :
    (dictKeys (⟨[("L1".toList,
          mkRepeatDivsum "LINE/L1".toList "L1".toList 600 300 ⟨200, 10⟩)],
        2, 0⟩ : DivsumResult).divsum).Nodup
    ∧ dictGet (⟨[("L1".toList,
          mkRepeatDivsum "LINE/L1".toList "L1".toList 600 300 ⟨200, 10⟩)],
        2, 0⟩ : DivsumResult).divsum "L1".toList =
        ((divsumRetained ["LINE/L1\tL1\t500\t200\t10.0".toList,
            "LINE/L1\tL1\t600\t300\t20.0".toList] (-1000000000)).filter
          (fun r => decide (r.r_id = "L1".toList))).getLast? := by
  have h := c9_divsum_last_write_wins
    ["LINE/L1\tL1\t500\t200\t10.0".toList, "LINE/L1\tL1\t600\t300\t20.0".toList]
    (-1000000000)
    ⟨[("L1".toList, mkRepeatDivsum "LINE/L1".toList "L1".toList 600 300 ⟨200, 10⟩)],
      2, 0⟩ (by decide)
  exact ⟨h.1, h.2 "L1".toList⟩

/-- **C1.** Evaluation of `parse_crossmatch_table` at inputs with a data line
too short for the required indices.  The `except IndexError` branch only
prints; control then falls through to the `RepeatAnnot` construction, so the
malformed line is reported (line index 1 in `err_lines`) but a record built
from the current line's score/chromosome/coordinates and the previous
iteration's stale name/class/strand is still appended (`kept = 2`, second
record named `AluY` on `chr2`).  When the short line is the first data line,
the construction instead raises an uncaught `NameError`, aborting the parse.
This contradicts the claim that the malformed record is not appended and
processing continues. -/
theorem c1_malformed_line_appended_or_aborts :
    (parseCrossmatchLines ["283 1.2 0.0 0.0 chr1 100 200 (0) + AluY SINE/Alu".toList,
        "150 2.0 0.0 0.0 chr2 300 400 (0) +".toList]).toOption.map
        (fun st => (st.kept, st.err_lines)) = some (2, [1])
    ∧ (parseCrossmatchLines ["283 1.2 0.0 0.0 chr1 100 200 (0) + AluY SINE/Alu".toList,
        "150 2.0 0.0 0.0 chr2 300 400 (0) +".toList]).toOption.map
        (fun st => st.cross_match.map (fun a => (a.name, a.chrom, a.start, a.«end»))) =
      some [("AluY".toList, "chr1".toList, 100, 200),
        ("AluY".toList, "chr2".toList, 300, 400)]
    ∧ exceptErr (parseCrossmatchLines
        ["150 2.0 0.0 0.0 chr2 300 400 (0) +".toList]) = some "NameError" := by
  exact ⟨by decide, by decide, by decide⟩

/-- **C10.** `parse_crossmatch_table` aborts on any input containing a line
that consists solely of whitespace (non-empty, not a comment): the
whole-line whitespace split yields no fields, so `fields[0]` raises an
uncaught `IndexError` instead of the line being skipped. -/
theorem c10_whitespace_line_aborts (lines : List PyStr)
    (h : ∃ l ∈ lines, l ≠ [] ∧ l.all pyIsSpaceChar = true) :
    (parseCrossmatchLines lines).toOption = none :=
  cmRun_ws lines ⟨{}, [], 0, 0, []⟩ 0 h

/-- Witness for C10 at the concrete input consisting of one line of three
spaces. -/
theorem c10_whitespace_line_aborts_witness :
    (parseCrossmatchLines ["   ".toList]).toOption = none :=
  c10_whitespace_line_aborts ["   ".toList]
    ⟨"   ".toList, by simp, by decide, by decide⟩

theorem cmStep_numeric_records (st : CMState) (i : Nat) (line : PyStr)
    (f0 : PyStr) (rest : List PyStr)
    (hhash : pyStartsWith line '#' = false) (hne : line ≠ [])
    (hsplit : pySplitWs line = f0 :: rest) (hnum : pyIsNumeric f0 = true)
    (st' : CMState) (heq : cmStep st i line = .ok st') :
    st'.records = st.records + 1 := by
  simp only [cmStep, hhash, Bool.false_eq_true, if_false, hsplit, hnum,
    Bool.not_true, List.length_eq_zero, hne] at heq
  split at heq
  · exact Except.noConfusion heq
  · split at heq
    · cases heq
      rfl
    · exact Except.noConfusion heq

/-- **C5 (amended).** In `parse_crossmatch_table`, a non-empty, non-comment
line is treated as a data record iff its first whitespace-delimited field is
nonempty and consists of Unicode-numeric characters in the sense of Python
`str.isnumeric` — a strict superset of the decimal digits; a first field that
is not `isnumeric` causes the line to be skipped with the state unchanged,
while an `isnumeric` first field makes the line a data record (counted in
`records`, so the state necessarily changes or the parse aborts). -/
theorem c5_first_field_isnumeric_discriminator (st : CMState) (i : Nat)
    (line : PyStr) (f0 : PyStr) (rest : List PyStr)
    (hhash : pyStartsWith line '#' = false) (hne : line ≠ [])
    (hsplit : pySplitWs line = f0 :: rest) :
    (pyIsNumeric f0 = false → cmStep st i line = .ok st)
    ∧ (pyIsNumeric f0 = true → cmStep st i line ≠ .ok st) := by
  constructor
  · intro hnum
    simp [cmStep, hhash, hsplit, hnum, List.length_eq_zero, hne]
  · intro hnum heq
    have := cmStep_numeric_records st i line f0 rest hhash hne hsplit hnum st heq
    omega

/-- **C5 (counterexample).** The first field `'²'` (superscript two) is not a
string of decimal digits, yet Python's `isnumeric` accepts it, so the line is
not skipped: it is treated as a data record, and the uncaught `ValueError`
from `int()` then aborts the whole parse. -/
theorem c5_counterexample_superscript_first_field :
    pyIsNumeric "²".toList = true
    ∧ "²".toList.all Char.isDigit = false
    ∧ exceptErr (cmStep ⟨{}, [], 0, 0, []⟩ 0
        "² 1.2 0.0 0.0 chr1 100 200 (0) + AluY SINE/Alu".toList) = some "ValueError"
    ∧ exceptErr (parseCrossmatchLines
        ["² 1.2 0.0 0.0 chr1 100 200 (0) + AluY SINE/Alu".toList]) =
      some "ValueError" := by
  exact ⟨by decide, by decide, by decide, by decide⟩

/-- Witness for the amended C5 at concrete lines: a header line whose first
field is not numeric is skipped, and a data line whose first field is numeric
is not a no-op. -/
theorem c5_first_field_isnumeric_discriminator_witness :
    ((pyIsNumeric "SW".toList = false →
      cmStep ⟨{}, [], 0, 0, []⟩ 0 "SW score perc div".toList = .ok ⟨{}, [], 0, 0, []⟩)
    ∧ (pyIsNumeric "SW".toList = true →
      cmStep ⟨{}, [], 0, 0, []⟩ 0 "SW score perc div".toList ≠ .ok ⟨{}, [], 0, 0, []⟩))
    ∧ ((pyIsNumeric "283".toList = false →
      cmStep ⟨{}, [], 0, 0, []⟩ 0
        "283 1.2 0.0 0.0 chr1 100 200 (0) + AluY SINE/Alu".toList =
          .ok ⟨{}, [], 0, 0, []⟩)
    ∧ (pyIsNumeric "283".toList = true →
      cmStep ⟨{}, [], 0, 0, []⟩ 0
        "283 1.2 0.0 0.0 chr1 100 200 (0) + AluY SINE/Alu".toList ≠
          .ok ⟨{}, [], 0, 0, []⟩)) :=
  ⟨c5_first_field_isnumeric_discriminator ⟨{}, [], 0, 0, []⟩ 0
      "SW score perc div".toList "SW".toList
      ["score".toList, "perc".toList, "div".toList]
      (by decide) (by decide) (by decide),
    c5_first_field_isnumeric_discriminator ⟨{}, [], 0, 0, []⟩ 0
      "283 1.2 0.0 0.0 chr1 100 200 (0) + AluY SINE/Alu".toList "283".toList
      ["1.2".toList, "0.0".toList, "0.0".toList, "chr1".toList, "100".toList,
        "200".toList, "(0)".toList, "+".toList, "AluY".toList, "SINE/Alu".toList]
      (by decide) (by decide) (by decide)⟩

/-- **C2.** For every annotation whose name has a matching divergence record
with a different top-level class, `merge_cross_divsum` raises the fatal
consistency `AssertionError` and halts: only the rows for the
annotations strictly before the first mismatch (in sorted order) are
emitted.  When every matched annotation agrees on the class, no error is
raised. -/
theorem c2_class_mismatch_fatal (cross : List RepeatAnnot) (divsum : DivDict) :
    ((∃ a ∈ cross, classMismatch divsum a = true) →
      (mergeCrossDivsum cross divsum).2 = some "AssertionError"
      ∧ (mergeCrossDivsum cross divsum).1 =
          mergedHeader ::
            ((pySortAnnots cross).takeWhile (fun a => !classMismatch divsum a)).map
              (fun a => mergeRow a (dictGet divsum a.name)))
    ∧ ((∀ a ∈ cross, classMismatch divsum a = false) →
      (mergeCrossDivsum cross divsum).2 = none) := by
  constructor
  · intro h
    have h' : ∃ a ∈ pySortAnnots cross, classMismatch divsum a = true := by
      rcases h with ⟨a, ha, hm⟩
      exact ⟨a, List.mem_mergeSort.mpr ha, hm⟩
    have hgo := mergeGo_mismatch divsum (pySortAnnots cross) h'
    exact ⟨by simp [mergeCrossDivsum, hgo], by simp [mergeCrossDivsum, hgo]⟩
  · intro h
    have h' : ∀ a ∈ pySortAnnots cross, classMismatch divsum a = false := fun a ha =>
      h a (List.mem_mergeSort.mp ha)
    simp [mergeCrossDivsum, mergeGo_no_mismatch divsum _ h']

/-- Witness for C2: an `AluY` annotation of class `SINE` against a divergence
record keyed `AluY` of class `LINE` aborts the merge; against one of class
`SINE` the merge succeeds. -/
theorem c2_class_mismatch_fatal_witness :
    ((mergeCrossDivsum
        [mkRepeatAnnot "AluY".toList "SINE/Alu".toList "chr1".toList 100 200
          "+".toList 283]
        [("AluY".toList,
          mkRepeatDivsum "LINE/L2".toList "AluY".toList 600 150 ⟨125, 10⟩)]).2 =
      some "AssertionError"
    ∧ (mergeCrossDivsum
        [mkRepeatAnnot "AluY".toList "SINE/Alu".toList "chr1".toList 100 200
          "+".toList 283]
        [("AluY".toList,
          mkRepeatDivsum "LINE/L2".toList "AluY".toList 600 150 ⟨125, 10⟩)]).1 =
        mergedHeader ::
          ((pySortAnnots
            [mkRepeatAnnot "AluY".toList "SINE/Alu".toList "chr1".toList 100 200
              "+".toList 283]).takeWhile
              (fun a => !classMismatch
                [("AluY".toList,
                  mkRepeatDivsum "LINE/L2".toList "AluY".toList 600 150 ⟨125, 10⟩)] a)).map
            (fun a => mergeRow a (dictGet
              [("AluY".toList,
                mkRepeatDivsum "LINE/L2".toList "AluY".toList 600 150 ⟨125, 10⟩)] a.name)))
    ∧ (mergeCrossDivsum
        [mkRepeatAnnot "AluY".toList "SINE/Alu".toList "chr1".toList 100 200
          "+".toList 283]
        [("AluY".toList,
          mkRepeatDivsum "SINE/Alu".toList "AluY".toList 600 150 ⟨125, 10⟩)]).2 =
      none := by
  have hthm1 := c2_class_mismatch_fatal
    [mkRepeatAnnot "AluY".toList "SINE/Alu".toList "chr1".toList 100 200
      "+".toList 283]
    [("AluY".toList,
      mkRepeatDivsum "LINE/L2".toList "AluY".toList 600 150 ⟨125, 10⟩)]
  have hthm2 := c2_class_mismatch_fatal
    [mkRepeatAnnot "AluY".toList "SINE/Alu".toList "chr1".toList 100 200
      "+".toList 283]
    [("AluY".toList,
      mkRepeatDivsum "SINE/Alu".toList "AluY".toList 600 150 ⟨125, 10⟩)]
  have hmm := hthm1.1 ⟨_, List.mem_singleton.mpr rfl, by decide⟩
  exact ⟨hmm, hthm2.2 (by decide)⟩

/-- **C3.** When no consistency error occurs, the merged table contains the
header plus exactly one data row per annotation record (the sorted list is a
permutation of the input, so every annotation produces one row whether or not
a divergence match exists), the rows appear in ascending order of start
coordinate, and two annotations with equal start coordinates keep their
original relative read order (stability of the sort). -/
theorem c3_merge_one_row_per_annotation_sorted_stable
    (cross : List RepeatAnnot) (divsum : DivDict)
    (h : ∀ a ∈ cross, classMismatch divsum a = false) :
    (mergeCrossDivsum cross divsum).1 =
      mergedHeader ::
        (pySortAnnots cross).map (fun a => mergeRow a (dictGet divsum a.name))
    ∧ (mergeCrossDivsum cross divsum).1.length = cross.length + 1
    ∧ List.Perm (pySortAnnots cross) cross
    ∧ (pySortAnnots cross).Pairwise (fun a b => a.start ≤ b.start)
    ∧ ∀ a b : RepeatAnnot, a.start = b.start → List.Sublist [a, b] cross →
        List.Sublist [a, b] (pySortAnnots cross) := by
  have h' : ∀ a ∈ pySortAnnots cross, classMismatch divsum a = false := fun a ha =>
    h a (List.mem_mergeSort.mp ha)
  have hgo := mergeGo_no_mismatch divsum _ h'
  have heq : (mergeCrossDivsum cross divsum).1 =
      mergedHeader ::
        (pySortAnnots cross).map (fun a => mergeRow a (dictGet divsum a.name)) := by
    simp [mergeCrossDivsum, hgo]
  refine ⟨heq, ?_, ?_, ?_, ?_⟩
  · rw [heq]
    simp [pySortAnnots, List.length_mergeSort]
  · exact List.mergeSort_perm cross annotLe
  · have hp := List.sorted_mergeSort
      (fun a b c => annotLe_trans a b c) (fun a b => annotLe_total a b) cross
    exact hp.imp (fun hab => by simpa [annotLe] using hab)
  · intro a b hse hsub
    exact List.pair_sublist_mergeSort
      (fun a b c => annotLe_trans a b c) (fun a b => annotLe_total a b)
      (by simp [annotLe, hse]) hsub

/-- Witness for C3 at a concrete input: two annotations with the same start
coordinate and one with a smaller start, no divergence matches; the merged
table has one row per annotation, the rows are sorted by start, and the tied
pair keeps its read order. -/
theorem c3_merge_one_row_per_annotation_sorted_stable_witness :
    (mergeCrossDivsum
        [mkRepeatAnnot "A1".toList "SINE/Alu".toList "chr1".toList 5 9
          "+".toList 10,
        mkRepeatAnnot "A2".toList "SINE/Alu".toList "chr1".toList 5 8
          "+".toList 11,
        mkRepeatAnnot "A3".toList "LINE/L1".toList "chr1".toList 3 7
          "+".toList 12] []).1.length = 4
    ∧ (pySortAnnots
        [mkRepeatAnnot "A1".toList "SINE/Alu".toList "chr1".toList 5 9
          "+".toList 10,
        mkRepeatAnnot "A2".toList "SINE/Alu".toList "chr1".toList 5 8
          "+".toList 11,
        mkRepeatAnnot "A3".toList "LINE/L1".toList "chr1".toList 3 7
          "+".toList 12]).Pairwise (fun a b => a.start ≤ b.start)
    ∧ List.Sublist
        [mkRepeatAnnot "A1".toList "SINE/Alu".toList "chr1".toList 5 9
          "+".toList 10,
        mkRepeatAnnot "A2".toList "SINE/Alu".toList "chr1".toList 5 8
          "+".toList 11]
        (pySortAnnots
          [mkRepeatAnnot "A1".toList "SINE/Alu".toList "chr1".toList 5 9
            "+".toList 10,
          mkRepeatAnnot "A2".toList "SINE/Alu".toList "chr1".toList 5 8
            "+".toList 11,
          mkRepeatAnnot "A3".toList "LINE/L1".toList "chr1".toList 3 7
            "+".toList 12]) := by
  have hthm := c3_merge_one_row_per_annotation_sorted_stable
    [mkRepeatAnnot "A1".toList "SINE/Alu".toList "chr1".toList 5 9 "+".toList 10,
      mkRepeatAnnot "A2".toList "SINE/Alu".toList "chr1".toList 5 8 "+".toList 11,
      mkRepeatAnnot "A3".toList "LINE/L1".toList "chr1".toList 3 7 "+".toList 12]
    [] (by decide)
  refine ⟨hthm.2.1, hthm.2.2.2.1, ?_⟩
  refine hthm.2.2.2.2 _ _ rfl ?_
  exact (List.sublist_cons_self _ _).cons₂ _ |>.cons₂ _

/-- **C6.** In a merged output row, an annotation without a divergence match
carries the explicit `None` marker (not zero) in both the `WellCharLen` and
`Kimura` cells; with a match, the cells hold the record's well-characterized
length and its Kimura fraction formatted to 6 significant digits. -/
theorem c6_missing_value_marker (a : RepeatAnnot) (divsum : DivDict) :
    (dictGet divsum a.name = none →
      wcharCell (dictGet divsum a.name) = "None".toList
      ∧ kimuraCell (dictGet divsum a.name) = "None".toList
      ∧ wcharCell (dictGet divsum a.name) ≠ "0".toList
      ∧ kimuraCell (dictGet divsum a.name) ≠ "0".toList)
    ∧ (∀ d : RepeatDivsum, dictGet divsum a.name = some d →
      wcharCell (dictGet divsum a.name) = pyIntStr d.wchar_len
      ∧ kimuraCell (dictGet divsum a.name) = pyFormatG 6 d.kimura)
    ∧ mergeRow a (dictGet divsum a.name) =
        tabJoin [a.chrom, pyIntStr a.start, pyIntStr a.«end», a.strand, a.name,
          a.r_class, a.r_family, wcharCell (dictGet divsum a.name),
          kimuraCell (dictGet divsum a.name), pyFormatG 6 (pyRatOfInt a.score)] := by
  refine ⟨?_, ?_, rfl⟩
  · intro h
    rw [h]
    exact ⟨rfl, rfl, by decide, by decide⟩
  · intro d h
    rw [h]
    exact ⟨rfl, rfl⟩

/-- Witness for C6: a concrete annotation against an empty index gets the
`None` markers; against an index holding its name, the two cells are
populated from the divergence record. -/
theorem c6_missing_value_marker_witness :
    (wcharCell (dictGet []
        (mkRepeatAnnot "AluY".toList "SINE/Alu".toList "chr1".toList 100 200
          "+".toList 283).name) = "None".toList
      ∧ kimuraCell (dictGet []
        (mkRepeatAnnot "AluY".toList "SINE/Alu".toList "chr1".toList 100 200
          "+".toList 283).name) = "None".toList
      ∧ wcharCell (dictGet []
        (mkRepeatAnnot "AluY".toList "SINE/Alu".toList "chr1".toList 100 200
          "+".toList 283).name) ≠ "0".toList
      ∧ kimuraCell (dictGet []
        (mkRepeatAnnot "AluY".toList "SINE/Alu".toList "chr1".toList 100 200
          "+".toList 283).name) ≠ "0".toList)
    ∧ (wcharCell (dictGet
          [("AluY".toList,
            mkRepeatDivsum "SINE/Alu".toList "AluY".toList 600 150 ⟨125, 10⟩)]
          (mkRepeatAnnot "AluY".toList "SINE/Alu".toList "chr1".toList 100 200
            "+".toList 283).name) =
        pyIntStr (mkRepeatDivsum "SINE/Alu".toList "AluY".toList 600 150
          ⟨125, 10⟩).wchar_len
      ∧ kimuraCell (dictGet
          [("AluY".toList,
            mkRepeatDivsum "SINE/Alu".toList "AluY".toList 600 150 ⟨125, 10⟩)]
          (mkRepeatAnnot "AluY".toList "SINE/Alu".toList "chr1".toList 100 200
            "+".toList 283).name) =
        pyFormatG 6 (mkRepeatDivsum "SINE/Alu".toList "AluY".toList 600 150
          ⟨125, 10⟩).kimura) := by
  constructor
  · exact (c6_missing_value_marker
      (mkRepeatAnnot "AluY".toList "SINE/Alu".toList "chr1".toList 100 200
        "+".toList 283) []).1 rfl
  · exact (c6_missing_value_marker
      (mkRepeatAnnot "AluY".toList "SINE/Alu".toList "chr1".toList 100 200
        "+".toList 283)
      [("AluY".toList,
        mkRepeatDivsum "SINE/Alu".toList "AluY".toList 600 150 ⟨125, 10⟩)]).2.1
      (mkRepeatDivsum "SINE/Alu".toList "AluY".toList 600 150 ⟨125, 10⟩)
      (by decide)

/-- **C7.** `print_table` with `total_length = 0` fails fatally with the
`ZeroDivisionError` of the first ratio, before the data row is emitted (only
the header has been written); with `total_length ≠ 0` it writes the header
and the single data row, whose proportion cells are the ratios
`value / total_length` formatted with 8 significant digits. -/
theorem c7_zero_total_fatal (r : RepProp) :
    (r.total_length = 0 →
      printTable r = ([propsHeader], some "ZeroDivisionError"))
    ∧ (r.total_length ≠ 0 →
      printTable r = ([propsHeader, propsRow r], none)) := by
  constructor
  · intro h
    simp [printTable, h]
  · intro h
    simp [printTable, h]

/-- Witness for C7: the zero-total record aborts; with `total_length = 1000`
and `total_masked = 250` the table is written and the masked proportion cell
is `0.25` at 8 significant digits. -/
theorem c7_zero_total_fatal_witness :
    printTable ⟨"seq1".toList, 0, 0, 0, 0, 0, 0, 0, 0, 0⟩ =
      ([propsHeader], some "ZeroDivisionError")
    ∧ printTable ⟨"seq1".toList, 1000, 250, 0, 0, 0, 0, 0, 0, 0⟩ =
      ([propsHeader, propsRow ⟨"seq1".toList, 1000, 250, 0, 0, 0, 0, 0, 0, 0⟩], none)
    ∧ propCell 250 1000 = "0.25".toList := by
  refine ⟨?_, ?_, by decide⟩
  · exact (c7_zero_total_fatal ⟨"seq1".toList, 0, 0, 0, 0, 0, 0, 0, 0, 0⟩).1 rfl
  · exact (c7_zero_total_fatal ⟨"seq1".toList, 1000, 250, 0, 0, 0, 0, 0, 0, 0⟩).2
      (by decide)

/-- **C8.** `clean_divsum_file` writes the header plus exactly one row per
entry of the divergence index, iterating the repeat identifiers in ascending
order (the iteration order is sorted and is a permutation of the keys), each
row being the 5 tab-separated columns class/family, identifier, absolute
length, well-characterized length, and the Kimura fraction formatted with 8
significant digits. -/
theorem c8_clean_divsum_sorted_rows (d : DivDict) :
    cleanDivsumFile d =
      divsumHeader ::
        (sortedKeys d).filterMap (fun k => (dictGet d k).map divsumRow)
    ∧ (cleanDivsumFile d).length = 1 + (dictKeys d).length
    ∧ List.Perm (sortedKeys d) (dictKeys d)
    ∧ (sortedKeys d).Pairwise (fun a b => pyStrLe a b = true)
    ∧ ∀ div : RepeatDivsum, divsumRow div =
        tabJoin [div.r_family, div.r_id, pyIntStr div.abs_len,
          pyIntStr div.wchar_len, pyFormatG 8 div.kimura] := by
  refine ⟨rfl, ?_, ?_, ?_, fun div => rfl⟩
  · simp only [cleanDivsumFile, List.length_cons]
    rw [filterMap_length_of_isSome]
    · simp [sortedKeys, List.length_mergeSort, Nat.add_comm]
    · intro k hk
      have hmem : k ∈ dictKeys d := List.mem_mergeSort.mp hk
      simpa [Option.isSome_map] using (mem_dictKeys_iff_isSome d k).mp hmem
  · exact List.mergeSort_perm _ pyStrLe
  · exact List.sorted_mergeSort
      (fun a b c => pyStrLe_trans a b c) (fun a b => pyStrLe_total a b) (dictKeys d)
